import Mathlib

/-
Verification development for cargo-teensy (src/main.rs).

Shallow embedding conventions:
- External processes (cargo, arm-none-eabi-objcopy, teensy_loader_cli, rustup)
  are nondeterministic environment steps; their results (an exit status plus
  the Debug-formatted command line) enter the model as parameters.
- Rust's std::process::ExitStatus is modelled with the two Unix cases: normal
  exit with a code, or termination by a signal.  success() holds exactly for
  exit code 0, and code() is none for signal termination.
- process::exit and panics end the program; a run is therefore modelled as a
  trace recording which steps executed, what was printed, and how it ended.
- The regex crate call in get_nightly_version uses leftmost-first (Perl-style)
  matching with a greedy leading .* that does not cross a newline; the
  embedding implements exactly those semantics for the concrete pattern.
  The digit class of the source regex is the Unicode Nd category, while the
  embedding tests ASCII 0-9; the two classes agree on every ASCII character,
  so the extraction theorems carry an all-ASCII hypothesis on the text and
  are exact on that domain.
- toml::Table is a BTreeMap String Value; it is modelled as an association
  list with unique keys, and BTreeMap::append as the merge in which the
  appended map's value wins on a key collision.  Only key/value content is
  relevant to the claims, so the sorted iteration order is not modelled.
-/

namespace CargoTeensy

/-- Unix process exit status: normal exit with a code, or killed by a signal. -/
inductive ExitStatus where
  | exited (c : Int)
  | signaled (sig : Nat)
deriving DecidableEq

/-- Rust ExitStatus::success(): true exactly when the process exited with code 0. -/
def ExitStatus.success : ExitStatus → Bool
  | .exited c => c == 0
  | .signaled _ => false

/-- Rust ExitStatus::code(): the exit code for a normal exit, none for a signal. -/
def ExitStatus.code : ExitStatus → Option Int
  | .exited c => some c
  | .signaled _ => none

/-- What one call of exit_on_fail does: either fall through to the next stage,
or print a message and terminate the whole program with the given code. -/
inductive StepResult where
  | proceed
  | exit (code : Int) (printed : String)
deriving DecidableEq

/-- Embedding of exit_on_fail (main.rs lines 212-219).  The argument is the
(ExitStatus, String) pair returned by execute: the child status and the
Debug-formatted command line.  On success it returns; on a failure that has an
exit code it prints the failed command line and calls process::exit with that
code.  A signal-terminated child (no code) falls through the if-let and the
function returns normally. -/
def exit_on_fail (result : ExitStatus × String) : StepResult :=
  if result.1.success then
    .proceed
  else
    match result.1.code with
    | some code => .exit code ("Failed command: " ++ result.2)
    | none => .proceed

/-- Trace of one run of the upload subcommand: which of the three stages were
invoked, everything printed after the stage results, and the early-exit code
if process::exit was reached (none means main returned normally). -/
structure UploadTrace where
  ranBuild : Bool
  ranMakeHex : Bool
  ranUpload : Bool
  printed : List String
  exitCode : Option Int
deriving DecidableEq

/-- Embedding of the upload branch of main (main.rs lines 324-337).  The three
stage results (build, make_hex, upload) are environment inputs; each stage is
gated by exit_on_fail on the previous result exactly as in the source.  The
manifest read and binname lookup that precede the pipeline only produce the
command strings and are absorbed into the stage-result parameters. -/
def mainUpload (buildRes makeHexRes uploadRes : ExitStatus × String) : UploadTrace :=
  match exit_on_fail buildRes with
  | .exit c m => ⟨true, false, false, [m], some c⟩
  | .proceed =>
    match exit_on_fail makeHexRes with
    | .exit c m => ⟨true, true, false, [m], some c⟩
    | .proceed =>
      match exit_on_fail uploadRes with
      | .exit c m => ⟨true, true, true, ["UPLOAD (waiting for reset)", m], some c⟩
      | .proceed =>
        ⟨true, true, true, ["UPLOAD (waiting for reset)", "Upload successful"], none⟩

/-- Does the character list start with the date shape of the capture group in
the regex of get_nightly_version: four digits, a hyphen, two digits, a
hyphen, two digits?  If so, return those ten characters.  Char.isDigit is
ASCII 0-9; the regex digit class is Unicode Nd, which coincides with 0-9 on
ASCII characters, so this predicate matches the regex exactly on ASCII text
and the theorems built on it assume an all-ASCII input. -/
def dateHere : List Char → Option (List Char)
  | c1 :: c2 :: c3 :: c4 :: h1 :: c5 :: c6 :: h2 :: c7 :: c8 :: _ =>
    if c1.isDigit && c2.isDigit && c3.isDigit && c4.isDigit && h1 == '-'
        && c5.isDigit && c6.isDigit && h2 == '-' && c7.isDigit && c8.isDigit then
      some [c1, c2, c3, c4, h1, c5, c6, h2, c7, c8]
    else
      none
  | _ => none

/-- The capture group produced by matching the greedy pattern dot-star, date,
dot-star at exactly this start position.  Regex dot does not match a newline,
and the greedy leading dot-star makes the group bind at the latest position
(reachable without crossing a newline) at which the date shape matches; the
trailing dot-star always succeeds. -/
def greedyDate : List Char → Option (List Char)
  | [] => none
  | c :: rest =>
    if c == '\n' then
      none
    else
      match greedyDate rest with
      | some d => some d
      | none => dateHere (c :: rest)

/-- The group-1 capture of the first (leftmost) match of the regex, i.e. the
value of captures_iter(txt).next().at(1): start positions are tried left to
right and the first position admitting a match supplies the capture. -/
def firstCapture : List Char → Option (List Char)
  | [] => none
  | c :: rest =>
    match greedyDate (c :: rest) with
    | some d => some d
    | none => firstCapture rest

/-- Does the character list begin with the given pattern? -/
def leadsWith : List Char → List Char → Bool
  | [], _ => true
  | _ :: _, [] => false
  | p :: ps, c :: cs => p == c && leadsWith ps cs

/-- Substring containment on character lists (str::find(pat).is_some()). -/
def containsPat (pat : List Char) : List Char → Bool
  | [] => leadsWith pat []
  | c :: cs => leadsWith pat (c :: cs) || containsPat pat cs

/-- The characters of the marker substring "stable". -/
def stableChars : List Char := ['s', 't', 'a', 'b', 'l', 'e']

/-- Does some position of the list start an ASCII date shape? -/
def hasDate : List Char → Bool
  | [] => false
  | c :: rest => (dateHere (c :: rest)).isSome || hasDate rest

/-- Embedding of get_nightly_version (main.rs lines 289-295).  If the text
contains "stable" the whole text is returned.  Otherwise the regex
dot-star, capture of four digits hyphen two digits hyphen two digits,
dot-star is run and group 1 of the first match is returned; the unwrap on a
text with no match is a panic, modelled as none. -/
def get_nightly_version (txt : String) : Option String :=
  if containsPat stableChars txt.toList then
    some txt
  else
    (firstCapture txt.toList).map fun cs => String.mk cs

example : get_nightly_version "branch: stable (default)" = some "branch: stable (default)" := by
  decide

example : get_nightly_version "branch: nightly-2016-03-01 (default)" = some "2016-03-01" := by
  decide

example : get_nightly_version "2001-01-01 2002-02-02" = some "2002-02-02" := by
  decide

example : get_nightly_version "no version here" = none := by
  decide

/-- Outcome of assert_rust_version: tokens equal (nothing printed, fall
through), tokens differ with the ignore flag set (a note is printed, fall
through), or tokens differ without the flag (an error is printed and
process::exit(-1) ends the program). -/
inductive VersionCheckResult where
  | ok
  | warned (msg : String)
  | fatal (code : Int) (msg : String)
deriving DecidableEq

/-- The note printed when the versions differ and --ignore-version is set.
The source format string joins its continuation line directly after "in"
(backslash-newline with no preceding space), so no space appears there. -/
def mismatchNote (rustversion rustcinstalled : String) : String :=
  "Note: Installed rust version " ++ rustcinstalled ++ " does not match the version "
    ++ rustversion ++ " defined ingithub.com/hackndev/zinc/master/.travis.yml."

/-- The error printed when the versions differ and --ignore-version is unset. -/
def mismatchError (rustversion rustcinstalled : String) : String :=
  "Error: Installed rust version " ++ rustcinstalled ++ " does not match the version "
    ++ rustversion ++ " defined in github.com/hackndev/zinc/master/.travis.yml.\n"
    ++ "Install with: rustup override set nightly-" ++ rustversion ++ "\n"
    ++ "Or use: cargo teensy new --ignore-version"

/-- Embedding of assert_rust_version (main.rs lines 297-317).  Its two inputs
are the tokens produced by get_nightly_version from the fetched travis yaml
field and from the rustup show output; both fetches are environment steps, so
the tokens are parameters here. -/
def assert_rust_version (rustversion rustcinstalled : String)
    (ignoreVersion : Bool) : VersionCheckResult :=
  if rustversion ≠ rustcinstalled then
    if ignoreVersion then
      .warned (mismatchNote rustversion rustcinstalled)
    else
      .fatal (-1) (mismatchError rustversion rustcinstalled)
  else
    .ok

/-- TOML values, as far as the manifest merge needs them. -/
inductive Toml where
  | str (s : String)
  | arr (xs : List Toml)
  | table (kvs : List (String × Toml))

/-- A toml::Table (BTreeMap String Value), modelled as an association list
with unique keys.  The sorted iteration order of the BTreeMap is not
modelled; lookups and key sets are what the claims are about. -/
abbrev Table := List (String × Toml)

/-- BTreeMap lookup on the association-list model. -/
def lookupKey (k : String) : Table → Option Toml
  | [] => none
  | (k1, v) :: rest => if k1 == k then some v else lookupKey k rest

/-- The key list of a table. -/
def keysOf (t : Table) : List String :=
  t.map Prod.fst

/-- BTreeMap::append self other: every entry of other is moved into self, and
when a key is present in both maps the value from other overwrites the value
in self. -/
def btreeAppend (self other : Table) : Table :=
  (self.filter fun kv => (lookupKey kv.1 other).isNone) ++ other

/-- The dependencies table contributed by MANIFESTADD: the dotted headers
for zinc and macro_zinc nest under the single top-level dependencies key. -/
def MANIFESTADD_deps : Table :=
  [("macro_zinc", .table
      [("branch", .str "master"),
       ("git", .str "https://github.com/hackndev/zinc.git"),
       ("path", .str "macro_zinc")]),
   ("rust-libcore", .str "*"),
   ("zinc", .table
      [("branch", .str "master"),
       ("git", .str "https://github.com/hackndev/zinc.git")])]

/-- The features table contributed by MANIFESTADD. -/
def MANIFESTADD_features : Table :=
  [("default", .arr [.str "mcu_k20"]),
   ("mcu_k20", .arr [.str "zinc/mcu_k20"])]

/-- The parse of the MANIFESTADD constant (main.rs lines 110-127) by
toml::Parser: exactly the two top-level keys dependencies and features. -/
def MANIFESTADD_toml : Table :=
  [("dependencies", .table MANIFESTADD_deps),
   ("features", .table MANIFESTADD_features)]

/-- Embedding of update_manifest (main.rs lines 241-250): parse MANIFESTADD
and BTreeMap::append it into the manifest read from disk; the rewrite of
Cargo.toml serialises exactly this merged table, which the model returns. -/
def update_manifest (manifest : Table) : Table :=
  btreeAppend manifest MANIFESTADD_toml

/-- How a run of the new subcommand ends: process::exit from the version
gate, a panic from a failed unwrap (directory change), or normal return. -/
inductive NewOutcome where
  | exited (c : Int)
  | panicked
  | completed
deriving DecidableEq

/-- Trace of one run of the new subcommand: the version-gate result, which
scaffolding steps executed, the manifest written back (when reached), and how
the run ended. -/
structure NewTrace where
  check : VersionCheckResult
  ranCargoNew : Bool
  wroteAbi : Bool
  wroteMain : Bool
  wroteCargoConfig : Bool
  finalManifest : Option Table
  outcome : NewOutcome

/-- Embedding of the new branch of main (main.rs lines 338-350).  The
external inputs are the two extracted version tokens, the result of the
cargo new child process, whether set_current_dir succeeds, and the manifest
generated by cargo new as read back from disk.  The source discards the
(ExitStatus, String) pair returned by cargo_new, then unwraps the directory
change, writes the three files, and merges the manifest. -/
def mainNew (rustversion rustcinstalled : String) (ignoreVersion : Bool)
    (cargoNewRes : ExitStatus × String) (chdirOk : Bool)
    (generatedManifest : Table) : NewTrace :=
  match assert_rust_version rustversion rustcinstalled ignoreVersion with
  | .fatal c m =>
    ⟨.fatal c m, false, false, false, false, none, .exited c⟩
  | r =>
    if chdirOk then
      ⟨r, true, true, true, true, some (update_manifest generatedManifest), .completed⟩
    else
      ⟨r, true, false, false, false, none, .panicked⟩

/-- When no suffix of the list starts a date shape, the greedy matcher finds
nothing at this start position. -/
theorem greedyDate_eq_none (cs : List Char)
    (h : ∀ q, dateHere (List.drop q cs) = none) : greedyDate cs = none := by
  induction cs with
  | nil => rfl
  | cons c rest ih =>
    have hrest : greedyDate rest = none := ih fun q => by simpa using h (q + 1)
    have h0 : dateHere (c :: rest) = none := h 0
    simp [greedyDate, hrest, h0]

/-- When no suffix of the list starts a date shape, no start position admits
a match at all. -/
theorem firstCapture_eq_none (cs : List Char)
    (h : ∀ q, dateHere (List.drop q cs) = none) : firstCapture cs = none := by
  induction cs with
  | nil => rfl
  | cons c rest ih =>
    have hrest : firstCapture rest = none := ih fun q => by simpa using h (q + 1)
    simp [firstCapture, greedyDate_eq_none _ h, hrest]

/-- hasDate is a sound scan: when it is false, no suffix starts a date. -/
theorem dateHere_eq_none_of_hasDate (cs : List Char) (h : hasDate cs = false) :
    ∀ q, dateHere (List.drop q cs) = none := by
  induction cs with
  | nil =>
    intro q
    simp only [List.drop_nil]
    rfl
  | cons c rest ih =>
    rw [hasDate, Bool.or_eq_false_iff] at h
    intro q
    cases q with
    | zero =>
      cases hd : dateHere (c :: rest) with
      | none => simpa using hd
      | some d => rw [hd] at h; simp at h
    | succ q =>
      have := ih h.2 q
      simpa using this

/-- When the whole list is newline-free and p is the last position at which a
date shape starts, the greedy matcher at the head position captures exactly
that last date. -/
theorem greedyDate_last (cs : List Char) (hnl : ∀ c ∈ cs, c ≠ '\n')
    (p : Nat) (d : List Char)
    (hp : dateHere (List.drop p cs) = some d)
    (hmax : ∀ q, p < q → dateHere (List.drop q cs) = none) :
    greedyDate cs = some d := by
  induction cs generalizing p with
  | nil =>
    rw [List.drop_nil] at hp
    exact absurd hp (by simp [dateHere])
  | cons c rest ih =>
    have hc : (c == '\n') = false := by
      simpa using hnl c (List.mem_cons_self c rest)
    cases p with
    | zero =>
      have hrest : greedyDate rest = none := by
        apply greedyDate_eq_none
        intro q
        have := hmax (q + 1) (Nat.succ_pos q)
        simpa using this
      rw [List.drop] at hp
      simp [greedyDate, hc, hrest, hp]
    | succ p =>
      have hp2 : dateHere (List.drop p rest) = some d := by simpa using hp
      have hmax2 : ∀ q, p < q → dateHere (List.drop q rest) = none := by
        intro q hq
        have := hmax (q + 1) (by omega)
        simpa using this
      have hrest : greedyDate rest = some d :=
        ih (fun x hx => hnl x (List.mem_cons_of_mem c hx)) p hp2 hmax2
      simp [greedyDate, hc, hrest]

/-- A match at the head position is the first match. -/
theorem firstCapture_of_greedyDate (cs : List Char) (d : List Char)
    (h : greedyDate cs = some d) : firstCapture cs = some d := by
  cases cs with
  | nil => exact absurd h (by simp [greedyDate])
  | cons c rest => simp [firstCapture, h]

/-- C1 (confirmed): in the upload pipeline, when the build stage exits with a
non-success exit code c, the objcopy-to-hex and teensy_loader_cli stages are
never invoked, the failing command line is printed, and the program
terminates with exactly c.  (A child torn down by a signal has no exit code
and is outside this claim: exit_on_fail falls through in that case.) -/
theorem pipeline_stops_on_build_failure (c : Int) (cmdB : String)
    (makeHexRes uploadRes : ExitStatus × String) (h : c ≠ 0) :
    mainUpload (ExitStatus.exited c, cmdB) makeHexRes uploadRes
      = ⟨true, false, false, ["Failed command: " ++ cmdB], some c⟩ := by
  have hc : (c == 0) = false := by simpa using h
  simp [mainUpload, exit_on_fail, ExitStatus.success, ExitStatus.code, hc]

/-- Witness for C1: a build that exits with code 101 stops the pipeline. -/
theorem pipeline_stops_on_build_failure_witness :
    mainUpload (ExitStatus.exited 101, "cargo build") (ExitStatus.exited 0, "objcopy")
        (ExitStatus.exited 0, "teensy_loader_cli")
      = ⟨true, false, false, ["Failed command: cargo build"], some 101⟩ :=
  pipeline_stops_on_build_failure 101 "cargo build" (ExitStatus.exited 0, "objcopy")
    (ExitStatus.exited 0, "teensy_loader_cli") (by decide)

/-- C5 (confirmed): any text containing the substring "stable" is returned
verbatim by get_nightly_version, date substrings present or not. -/
theorem extraction_stable_identity (txt : String)
    (h : containsPat stableChars txt.toList = true) :
    get_nightly_version txt = some txt := by
  have h2 : containsPat stableChars txt.data = true := h
  simp [get_nightly_version, h2]

/-- Witness for C5: a text containing both "stable" and a date comes back
unchanged. -/
theorem extraction_stable_identity_witness :
    get_nightly_version "stable since 2016-03-01" = some "stable since 2016-03-01" :=
  extraction_stable_identity "stable since 2016-03-01" (by decide)

/-- C6 (confirmed): on all-ASCII text with no "stable" marker and no date
shape at any position, get_nightly_version produces no token at all (the
unwrap in the source panics), rather than an empty or default value.  The
ASCII hypothesis makes the model's digit test coincide with the Unicode Nd
class of the source regex; a text with digits of Nd outside ASCII contains a
date in the regex's reading, so it is outside this claim. -/
theorem extraction_fails_without_token (txt : String)
    (hascii : ∀ c ∈ txt.toList, c.toNat < 128)
    (hstable : containsPat stableChars txt.toList = false)
    (hdate : hasDate txt.toList = false) :
    get_nightly_version txt = none := by
  have h2 : containsPat stableChars txt.data = false := hstable
  have hfc : firstCapture txt.data = none :=
    firstCapture_eq_none txt.toList (dateHere_eq_none_of_hasDate txt.toList hdate)
  simp [get_nightly_version, h2, hfc]

/-- Witness for C6: an all-ASCII, marker-free, date-free text yields no
token. -/
theorem extraction_fails_without_token_witness :
    containsPat stableChars (String.toList "active toolchain: none") = false
  ∧ hasDate (String.toList "active toolchain: none") = false
  ∧ get_nightly_version "active toolchain: none" = none :=
  ⟨by decide, by decide,
   extraction_fails_without_token "active toolchain: none"
     (by decide) (by decide) (by decide)⟩

/-- Counterexample for C2: the text "2001-01-01 2002-02-02" has no "stable",
its first date substring (at position 0) is "2001-01-01", yet the operation
returns "2002-02-02" - the greedy leading dot-star of the regex binds the
capture group to the last date, not the first. -/
theorem extraction_not_first_counterexample :
    containsPat stableChars (String.toList "2001-01-01 2002-02-02") = false
  ∧ dateHere (String.toList "2001-01-01 2002-02-02") = some (String.toList "2001-01-01")
  ∧ get_nightly_version "2001-01-01 2002-02-02" = some "2002-02-02" :=
  ⟨by decide, by decide, by decide⟩

/-- C2 (corrected): for all-ASCII, newline-free text without "stable", whose
last date shape starts at position p, get_nightly_version returns the date
at p - the LAST occurrence, not the first.  The ASCII hypothesis makes the
model's digit test coincide with the Unicode Nd class of the source regex;
positions at or beyond the length carry no date, so the bound in hmax loses
no generality. -/
theorem extraction_returns_last_date (txt : String) (p : Nat) (d : List Char)
    (hascii : ∀ c ∈ txt.toList, c.toNat < 128)
    (hstable : containsPat stableChars txt.toList = false)
    (hnl : ∀ c ∈ txt.toList, c ≠ '\n')
    (hp : dateHere (List.drop p txt.toList) = some d)
    (hmax : ∀ q, q < txt.toList.length → p < q → dateHere (List.drop q txt.toList) = none) :
    get_nightly_version txt = some (String.mk d) := by
  have hmax2 : ∀ q, p < q → dateHere (List.drop q txt.toList) = none := by
    intro q hq
    by_cases hlen : q < txt.toList.length
    · exact hmax q hlen hq
    · have hdrop : List.drop q txt.toList = [] :=
        List.drop_eq_nil_of_le (by omega)
      rw [hdrop]
      rfl
  have h2 : containsPat stableChars txt.data = false := hstable
  have hfc : firstCapture txt.data = some d :=
    firstCapture_of_greedyDate txt.toList d (greedyDate_last txt.toList hnl p d hp hmax2)
  simp [get_nightly_version, h2, hfc]

/-- Witness for C2 (amended): on "branch: nightly-2016-03-01 (default)" the
only (hence last) date starts at position 16 and is returned. -/
theorem extraction_returns_last_date_witness :
    get_nightly_version "branch: nightly-2016-03-01 (default)"
      = some (String.mk (String.toList "2016-03-01")) :=
  extraction_returns_last_date "branch: nightly-2016-03-01 (default)" 16
    (String.toList "2016-03-01") (by decide) (by decide) (by decide) (by decide)
    (by decide)

/-- C4 (confirmed): with differing tokens and the ignore-version flag unset,
the new subcommand ends with the hard-coded status -1 (a non-zero status)
carrying the error text that names both versions, and no scaffolding step
(cargo new, directory change, file writes, manifest rewrite) is reached. -/
theorem version_gate_blocks_scaffold (rv ri : String)
    (cargoNewRes : ExitStatus × String) (chdirOk : Bool) (m : Table)
    (h : rv ≠ ri) :
    mainNew rv ri false cargoNewRes chdirOk m
      = ⟨.fatal (-1) (mismatchError rv ri), false, false, false, false, none, .exited (-1)⟩
  ∧ ((-1 : Int) ≠ 0) := by
  constructor
  · simp [mainNew, assert_rust_version, h]
  · decide

/-- Witness for C4: tokens "2016-03-01" versus "stable" without the flag. -/
theorem version_gate_blocks_scaffold_witness :
    mainNew "2016-03-01" "stable" false (ExitStatus.exited 0, "cargo new foo") true []
      = ⟨.fatal (-1) (mismatchError "2016-03-01" "stable"),
         false, false, false, false, none, .exited (-1)⟩
  ∧ ((-1 : Int) ≠ 0) :=
  version_gate_blocks_scaffold "2016-03-01" "stable"
    (ExitStatus.exited 0, "cargo new foo") true [] (by decide)

/-- C7 (confirmed): equal tokens never enter the mismatch branch for either
value of the ignore-version flag: the gate reports ok (nothing printed) and
the new subcommand runs to completion. -/
theorem version_gate_equal_tokens (v : String) (ig : Bool)
    (cargoNewRes : ExitStatus × String) (m : Table) :
    assert_rust_version v v ig = .ok
  ∧ (mainNew v v ig cargoNewRes true m).check = .ok
  ∧ (mainNew v v ig cargoNewRes true m).outcome = .completed := by
  have hok : assert_rust_version v v ig = .ok := by simp [assert_rust_version]
  exact ⟨hok, by simp [mainNew, hok], by simp [mainNew, hok]⟩

/-- C8 (confirmed): with differing tokens and the ignore-version flag set,
the gate only prints the note and the new subcommand continues through all
scaffolding steps to completion. -/
theorem version_gate_ignore_warns (rv ri : String)
    (cargoNewRes : ExitStatus × String) (m : Table) (h : rv ≠ ri) :
    assert_rust_version rv ri true = .warned (mismatchNote rv ri)
  ∧ mainNew rv ri true cargoNewRes true m
      = ⟨.warned (mismatchNote rv ri), true, true, true, true,
         some (update_manifest m), .completed⟩ := by
  have h1 : assert_rust_version rv ri true = .warned (mismatchNote rv ri) := by
    simp [assert_rust_version, h]
  exact ⟨h1, by simp [mainNew, h1]⟩

/-- Witness for C8: tokens "2016-03-01" versus "stable" with the flag set. -/
theorem version_gate_ignore_warns_witness :
    assert_rust_version "2016-03-01" "stable" true
      = .warned (mismatchNote "2016-03-01" "stable")
  ∧ mainNew "2016-03-01" "stable" true (ExitStatus.exited 0, "cargo new foo") true []
      = ⟨.warned (mismatchNote "2016-03-01" "stable"), true, true, true, true,
         some (update_manifest []), .completed⟩ :=
  version_gate_ignore_warns "2016-03-01" "stable"
    (ExitStatus.exited 0, "cargo new foo") [] (by decide)

/-- C10 (confirmed): the new subcommand's trace is identical for any two
results of the cargo new child (its exit status is never inspected); when
the version gate passes, the directory change and file writes proceed
unconditionally, and a cargo new failure surfaces only indirectly, as the
panic of the failed directory change. -/
theorem scaffold_ignores_cargo_new_status (rv : String) (ig : Bool)
    (ri : String) (res1 res2 : ExitStatus × String) (chdirOk : Bool) (m : Table) :
    mainNew rv ri ig res1 chdirOk m = mainNew rv ri ig res2 chdirOk m
  ∧ (mainNew rv rv ig res1 true m).ranCargoNew = true
  ∧ (mainNew rv rv ig res1 true m).wroteAbi = true
  ∧ (mainNew rv rv ig res1 true m).outcome = .completed
  ∧ (mainNew rv rv ig res1 false m).wroteAbi = false
  ∧ (mainNew rv rv ig res1 false m).outcome = .panicked := by
  have hok : assert_rust_version rv rv ig = .ok := by simp [assert_rust_version]
  exact ⟨rfl, by simp [mainNew, hok], by simp [mainNew, hok], by simp [mainNew, hok],
    by simp [mainNew, hok], by simp [mainNew, hok]⟩

/-- Lookup hits the left part of an appended table when the key is there. -/
theorem lookupKey_append_left {a : Table} (b : Table) {k : String} {v : Toml}
    (h : lookupKey k a = some v) : lookupKey k (a ++ b) = some v := by
  induction a with
  | nil => exact absurd h (by simp [lookupKey])
  | cons kv rest ih =>
    rw [List.cons_append]
    rw [lookupKey] at h
    rw [lookupKey]
    by_cases hk : (kv.1 == k) = true
    · simpa [hk] using h
    · rw [Bool.not_eq_true] at hk
      rw [hk] at h
      simpa [hk] using ih h

/-- Lookup falls through to the right part when the key misses the left. -/
theorem lookupKey_append_right {a : Table} (b : Table) {k : String}
    (h : lookupKey k a = none) : lookupKey k (a ++ b) = lookupKey k b := by
  induction a with
  | nil => rfl
  | cons kv rest ih =>
    rw [lookupKey] at h
    rw [List.cons_append, lookupKey]
    by_cases hk : (kv.1 == k) = true
    · rw [hk] at h
      simp at h
    · rw [Bool.not_eq_true] at hk
      rw [hk] at h
      simpa [hk] using ih h

/-- Filtering out the keys of other does not disturb a key absent in other. -/
theorem lookupKey_filter_keep {m : Table} (other : Table) {k : String} {v : Toml}
    (hother : lookupKey k other = none) (h : lookupKey k m = some v) :
    lookupKey k (m.filter fun kv => (lookupKey kv.1 other).isNone) = some v := by
  induction m with
  | nil => exact absurd h (by simp [lookupKey])
  | cons kv rest ih =>
    rw [lookupKey] at h
    rw [List.filter]
    by_cases hk : (kv.1 == k) = true
    · have hkeq : kv.1 = k := eq_of_beq hk
      have hkeep : (lookupKey kv.1 other).isNone = true := by
        rw [hkeq, hother]
        rfl
      rw [hkeep, lookupKey, hk]
      rw [hk] at h
      simpa using h
    · rw [Bool.not_eq_true] at hk
      rw [hk] at h
      cases hkeep : (lookupKey kv.1 other).isNone with
      | true => rw [lookupKey, hk]; exact ih h
      | false => exact ih h

/-- Filtering out the keys of other removes every key present in other. -/
theorem lookupKey_filter_drop {k : String} {v : Toml} (m other : Table)
    (hother : lookupKey k other = some v) :
    lookupKey k (m.filter fun kv => (lookupKey kv.1 other).isNone) = none := by
  induction m with
  | nil => rfl
  | cons kv rest ih =>
    rw [List.filter]
    cases hkeep : (lookupKey kv.1 other).isNone with
    | true =>
      rw [lookupKey]
      have hk : (kv.1 == k) = false := by
        by_contra hcon
        rw [Bool.not_eq_false] at hcon
        rw [eq_of_beq hcon, hother] at hkeep
        simp at hkeep
      rw [hk]
      exact ih
    | false => exact ih

/-- A key whose lookup misses is not among the keys. -/
theorem not_mem_keysOf_of_lookupKey {t : Table} {k : String}
    (h : lookupKey k t = none) : k ∉ keysOf t := by
  induction t with
  | nil => simp [keysOf]
  | cons kv rest ih =>
    rw [lookupKey] at h
    by_cases hk : (kv.1 == k) = true
    · rw [hk] at h
      simp at h
    · rw [Bool.not_eq_true] at hk
      rw [hk] at h
      rw [keysOf, List.map_cons]
      intro hmem
      rcases List.mem_cons.mp hmem with heq | hmem2
      · rw [heq] at hk
        simp at hk
      · exact ih h hmem2

/-- C3 (corrected): merging MANIFESTADD into a manifest keeps the result a
well-formed table (unique keys, so it still serialises and parses), keeps
every original key whose name is not a top-level key of the addition with
its original value, and adds every addition key with the addition's value -
but original keys that collide with an addition key are overwritten, so the
claim holds only for the non-colliding keys. -/
theorem manifest_merge_amended (m : Table) (hnodup : (keysOf m).Nodup) :
    (keysOf (update_manifest m)).Nodup
  ∧ (∀ k v, lookupKey k MANIFESTADD_toml = none → lookupKey k m = some v →
      lookupKey k (update_manifest m) = some v)
  ∧ (∀ k v, lookupKey k MANIFESTADD_toml = some v →
      lookupKey k (update_manifest m) = some v) := by
  refine ⟨?_, ?_, ?_⟩
  · rw [update_manifest, btreeAppend, keysOf, List.map_append, List.nodup_append]
    refine ⟨?_, by decide, ?_⟩
    · exact ((List.filter_sublist m).map Prod.fst).nodup hnodup
    · intro a ha
      rcases List.mem_map.mp ha with ⟨kv, hkvmem, rfl⟩
      rcases List.mem_filter.mp hkvmem with ⟨_, hkeep⟩
      have : lookupKey kv.1 MANIFESTADD_toml = none := by
        cases hl : lookupKey kv.1 MANIFESTADD_toml with
        | none => rfl
        | some w => rw [hl] at hkeep; simp at hkeep
      exact not_mem_keysOf_of_lookupKey this
  · intro k v hmiss hold
    rw [update_manifest, btreeAppend]
    exact lookupKey_append_left _ (lookupKey_filter_keep _ hmiss hold)
  · intro k v hadd
    rw [update_manifest, btreeAppend]
    rw [lookupKey_append_right _ (lookupKey_filter_drop m MANIFESTADD_toml hadd)]
    exact hadd

/-- Witness for C3 (amended): a package-only manifest keeps its package
table through the merge. -/
theorem manifest_merge_amended_witness :
    lookupKey "package" (update_manifest [("package", Toml.table [("name", Toml.str "foo")])])
      = some (Toml.table [("name", Toml.str "foo")]) :=
  (manifest_merge_amended [("package", Toml.table [("name", Toml.str "foo")])]
    (by decide)).2.1 "package" (Toml.table [("name", Toml.str "foo")]) rfl rfl

/-- The manifest cargo new generates: an empty dependencies table next to
the package table, as the 2016-era cargo new --bin wrote it. -/
def cargoNewManifest : Table :=
  [("dependencies", Toml.table []),
   ("package", Toml.table
      [("authors", Toml.arr [Toml.str "dev"]),
       ("name", Toml.str "foo"),
       ("version", Toml.str "0.1.0")])]

/-- Counterexample for C3: on a manifest containing package name foo whose
dependencies key holds the empty table, the merge replaces that original
value, so not every original key keeps its value. -/
theorem manifest_merge_overwrites_counterexample :
    lookupKey "package" cargoNewManifest
      = some (Toml.table
          [("authors", Toml.arr [Toml.str "dev"]),
           ("name", Toml.str "foo"),
           ("version", Toml.str "0.1.0")])
  ∧ lookupKey "dependencies" cargoNewManifest = some (Toml.table [])
  ∧ lookupKey "dependencies" (update_manifest cargoNewManifest) ≠ some (Toml.table []) := by
  refine ⟨rfl, rfl, ?_⟩
  intro hcontra
  have hstep : lookupKey "dependencies" (update_manifest cargoNewManifest)
      = some (Toml.table MANIFESTADD_deps) := rfl
  rw [hstep] at hcontra
  simp [MANIFESTADD_deps] at hcontra

/-- C9 (confirmed): a key present in both the manifest and the addition ends
up with the addition's value after the merge; when the two values differ the
original value is gone. -/
theorem manifest_merge_addition_wins (m : Table) (k : String) (vOld vAdd : Toml)
    (hold : lookupKey k m = some vOld)
    (hadd : lookupKey k MANIFESTADD_toml = some vAdd) :
    lookupKey k (update_manifest m) = some vAdd
  ∧ (vOld ≠ vAdd → lookupKey k (update_manifest m) ≠ some vOld) := by
  have hwin : lookupKey k (update_manifest m) = some vAdd := by
    rw [update_manifest, btreeAppend]
    rw [lookupKey_append_right _ (lookupKey_filter_drop m MANIFESTADD_toml hadd)]
    exact hadd
  refine ⟨hwin, ?_⟩
  intro hne hcontra
  rw [hwin] at hcontra
  exact hne (Option.some.inj hcontra).symm

/-- Witness for C9: the empty dependencies table of a fresh manifest is
replaced by the addition's dependencies table. -/
theorem manifest_merge_addition_wins_witness :
    lookupKey "dependencies" (update_manifest [("dependencies", Toml.table [])])
      = some (Toml.table MANIFESTADD_deps)
  ∧ lookupKey "dependencies" (update_manifest [("dependencies", Toml.table [])])
      ≠ some (Toml.table []) := by
  have h := manifest_merge_addition_wins [("dependencies", Toml.table [])]
    "dependencies" (Toml.table []) (Toml.table MANIFESTADD_deps) rfl rfl
  exact ⟨h.1, h.2 (by simp [MANIFESTADD_deps])⟩

end CargoTeensy
